import Mathlib

/-!
# Community portal front-end scripts

A shallow embedding of the three scripts of the repository:

* `hello/static/admin/js/autocomplete.js`: the jQuery plugin `djangoAdminSelect2`
  and its helper `initAutocomplete` (namespace `Autocomplete`);
* `frontend/src/App.js`: the React component that loads a user list with axios
  (namespace `Frontend`);
* `hello/myapplication/frontend/src/App.js`: the React component that pings the
  backend with `fetch` (namespace `MyApplication`).

JavaScript values are a tree type `JSVal`. Side effects (calls of the Select2
plugin, console output, network requests) are recorded in an explicit state that
the functions pass along. A JavaScript call either completes with a value or
throws one: `Except JSVal`.
-/

set_option autoImplicit false

/-! ## JavaScript values -/

/-- A DOM element wrapped in a jQuery object: its node identity and its HTML
attributes, in document order. -/
structure Element where
  node : Nat
  attrs : List (String × String)
deriving DecidableEq, Repr

/-- Function values. `ajaxData el` is the closure written at lines 9-17 of
autocomplete.js, which captures `$element`; `host i` is any other function, written
by a caller of the plugin, whose behaviour is given by a `HostEnv`. -/
inductive Fn where
  | ajaxData (el : Element)
  | host (id : Nat)
deriving DecidableEq, Repr

/-- JavaScript values. Numbers are the integers and `NaN`; plain objects are lists
of own properties in insertion order. -/
inductive JSVal where
  | undefined
  | null
  | bool (b : Bool)
  | num (n : Int)
  | nan
  | str (s : String)
  | fn (f : Fn)
  | obj (fields : List (String × JSVal))
  | arr (items : List JSVal)
deriving Repr

/-- The own properties of a plain object. -/
abbrev Fields := List (String × JSVal)

mutual
/-- Decision procedure for equality of values. -/
def JSVal.decEq (a b : JSVal) : Decidable (a = b) :=
  match a with
  | .undefined => match b with
    | .undefined => isTrue rfl
    | .null | .bool _ | .num _ | .nan | .str _ | .fn _ | .obj _ | .arr _ =>
      isFalse (by intro e; cases e)
  | .null => match b with
    | .null => isTrue rfl
    | .undefined | .bool _ | .num _ | .nan | .str _ | .fn _ | .obj _ | .arr _ =>
      isFalse (by intro e; cases e)
  | .nan => match b with
    | .nan => isTrue rfl
    | .undefined | .null | .bool _ | .num _ | .str _ | .fn _ | .obj _ | .arr _ =>
      isFalse (by intro e; cases e)
  | .bool x => match b with
    | .bool y =>
      if h : x = y then isTrue (by rw [h]) else isFalse (by intro e; cases e; exact h rfl)
    | .undefined | .null | .num _ | .nan | .str _ | .fn _ | .obj _ | .arr _ =>
      isFalse (by intro e; cases e)
  | .num x => match b with
    | .num y =>
      if h : x = y then isTrue (by rw [h]) else isFalse (by intro e; cases e; exact h rfl)
    | .undefined | .null | .bool _ | .nan | .str _ | .fn _ | .obj _ | .arr _ =>
      isFalse (by intro e; cases e)
  | .str x => match b with
    | .str y =>
      if h : x = y then isTrue (by rw [h]) else isFalse (by intro e; cases e; exact h rfl)
    | .undefined | .null | .bool _ | .num _ | .nan | .fn _ | .obj _ | .arr _ =>
      isFalse (by intro e; cases e)
  | .fn x => match b with
    | .fn y =>
      if h : x = y then isTrue (by rw [h]) else isFalse (by intro e; cases e; exact h rfl)
    | .undefined | .null | .bool _ | .num _ | .nan | .str _ | .obj _ | .arr _ =>
      isFalse (by intro e; cases e)
  | .obj x => match b with
    | .obj y => match JSVal.decEqFields x y with
      | isTrue h => isTrue (by rw [h])
      | isFalse h => isFalse (by intro e; cases e; exact h rfl)
    | .undefined | .null | .bool _ | .num _ | .nan | .str _ | .fn _ | .arr _ =>
      isFalse (by intro e; cases e)
  | .arr x => match b with
    | .arr y => match JSVal.decEqItems x y with
      | isTrue h => isTrue (by rw [h])
      | isFalse h => isFalse (by intro e; cases e; exact h rfl)
    | .undefined | .null | .bool _ | .num _ | .nan | .str _ | .fn _ | .obj _ =>
      isFalse (by intro e; cases e)
/-- Decision procedure for equality of property lists. -/
def JSVal.decEqFields : (a b : List (String × JSVal)) → Decidable (a = b)
  | [], [] => isTrue rfl
  | [], _ :: _ => isFalse (by intro e; cases e)
  | _ :: _, [] => isFalse (by intro e; cases e)
  | (k, v) :: r, (k', v') :: r' =>
    if hk : k = k' then
      match JSVal.decEq v v' with
      | isTrue hv => match JSVal.decEqFields r r' with
        | isTrue hr => isTrue (by rw [hk, hv, hr])
        | isFalse hr => isFalse (by intro e; cases e; exact hr rfl)
      | isFalse hv => isFalse (by intro e; cases e; exact hv rfl)
    else isFalse (by intro e; cases e; exact hk rfl)
/-- Decision procedure for equality of array contents. -/
def JSVal.decEqItems : (a b : List JSVal) → Decidable (a = b)
  | [], [] => isTrue rfl
  | [], _ :: _ => isFalse (by intro e; cases e)
  | _ :: _, [] => isFalse (by intro e; cases e)
  | v :: r, v' :: r' =>
    match JSVal.decEq v v' with
    | isTrue hv => match JSVal.decEqItems r r' with
      | isTrue hr => isTrue (by rw [hv, hr])
      | isFalse hr => isFalse (by intro e; cases e; exact hr rfl)
    | isFalse hv => isFalse (by intro e; cases e; exact hv rfl)
end

instance : DecidableEq JSVal := JSVal.decEq

/-- Equality of completions is decidable. -/
instance instDecidableEqCompletion {ε α : Type} [DecidableEq ε] [DecidableEq α] :
    DecidableEq (Except ε α) := fun a b =>
  match a, b with
  | .ok x, .ok y =>
    if h : x = y then isTrue (by rw [h]) else isFalse (by intro e; cases e; exact h rfl)
  | .error x, .error y =>
    if h : x = y then isTrue (by rw [h]) else isFalse (by intro e; cases e; exact h rfl)
  | .ok _, .error _ => isFalse (by intro e; cases e)
  | .error _, .ok _ => isFalse (by intro e; cases e)

/-- JavaScript truthiness: `undefined`, `null`, `false`, `0`, `NaN` and the empty
string are falsy, every other value is truthy. -/
def truthy : JSVal → Bool
  | .undefined => false
  | .null => false
  | .nan => false
  | .bool b => b
  | .num n => n != 0
  | .str s => s != ""
  | .fn _ => true
  | .obj _ => true
  | .arr _ => true

/-- The operator `a || b`: `a` when it is truthy, `b` otherwise. -/
def jsOr (a b : JSVal) : JSVal := if truthy a then a else b

/-- Reading `o[name]` on the own properties of a plain object; a name that is not
there reads as `undefined`. -/
def getProp : Fields → String → JSVal
  | [], _ => .undefined
  | (k, v) :: rest, name => if k = name then v else getProp rest name

/-- The assignment `o[name] = v`: an existing property keeps its place, a new one
goes last. -/
def setProp : Fields → String → JSVal → Fields
  | [], name, v => [(name, v)]
  | (k, w) :: rest, name, v =>
    if k = name then (k, v) :: rest else (k, w) :: setProp rest name v

/-- The value thrown by a property read on `undefined` or `null`. -/
def typeError : JSVal := .obj [("name", .str "TypeError")]

/-- The expression `v.name` for the property names the scripts read (`term`,
`page`, `id`, `firstName`): a `TypeError` on `undefined` and `null`, the own
property on a plain object, `undefined` on every other value, none of which has a
property of these names. -/
def member (v : JSVal) (name : String) : Except JSVal JSVal :=
  match v with
  | .undefined => .error typeError
  | .null => .error typeError
  | .obj fs => .ok (getProp fs name)
  | _ => .ok .undefined

/-! ## jQuery: `attr` and the deep `$.extend` -/

/-- The call `$element.attr(name)`: the attribute's value as a string, or
`undefined` when the element does not have the attribute. -/
def Element.attr (el : Element) (name : String) : JSVal :=
  match el.attrs.lookup name with
  | some v => .str v
  | none => .undefined

/-- The own properties of `v` when `v` is a plain object, none otherwise:
the `clone` that `$.extend` merges a plain object into. -/
def plainFields : JSVal → Fields
  | .obj fs => fs
  | _ => []

/-- The items of `v` when `v` is an array, none otherwise: the `clone` that
`$.extend` merges an array into. -/
def arrayItems : JSVal → List JSVal
  | .arr xs => xs
  | _ => []

mutual
/-- The value `$.extend(true, ...)` stores for a property whose incoming value is
`copy` and whose current value is `src`: plain objects and arrays are merged
recursively into a clone of `src` (or into a fresh `{}` or `[]` when `src` is not of
the same kind), any other value is stored as it is. -/
def mergeValue (src : JSVal) : JSVal → JSVal
  | .obj fs => .obj (extendFields (plainFields src) fs)
  | .arr xs => .arr (extendItems (arrayItems src) xs)
  | c => c
/-- The loop `for (name in options)` of `$.extend(true, target, options)` over the
properties of a plain object: `__proto__` and `undefined` values are skipped, every
other property is merged into `target`. -/
def extendFields (target : Fields) : Fields → Fields
  | [] => target
  | (name, copy) :: rest =>
    if name = "__proto__" then extendFields target rest
    else match copy with
      | .undefined => extendFields target rest
      | c => extendFields (setProp target name (mergeValue (getProp target name) c)) rest
/-- The same loop over the indices of an array that is merged into the array
`target`: an `undefined` item leaves `target[i]` alone, and when `target` has no
index `i` the slot exists only if a later index is assigned (such a hole reads as
`undefined`). -/
def extendItems (target : List JSVal) : List JSVal → List JSVal
  | [] => target
  | copy :: rest =>
    match copy with
    | .undefined =>
      match target with
      | [] =>
        match extendItems [] rest with
        | [] => []
        | x :: xs => .undefined :: x :: xs
      | t :: ts => t :: extendItems ts rest
    | c => mergeValue (target.headD .undefined) c :: extendItems target.tail rest
end

/-- The properties `(i, xs[i])` of an array (or of the characters of a string),
numbered from `i`. -/
def indexed : Nat → List JSVal → Fields
  | _, [] => []
  | i, x :: xs => (toString i, x) :: indexed (i + 1) xs

/-- The properties that `for (name in v)` enumerates: those of a plain object, the
indices of an array, the character positions of a string; numbers, booleans and
functions have none. -/
def ownProps : JSVal → Fields
  | .obj fs => fs
  | .arr xs => indexed 0 xs
  | .str s => indexed 0 (s.toList.map fun c => .str (String.singleton c))
  | _ => []

/-- The call `$.extend(true, target, options)` on a target that is a fresh object
literal: `options` equal to `null` or `undefined` is skipped. -/
def jqExtendDeep (target : Fields) (options : JSVal) : Fields :=
  match options with
  | .undefined => target
  | .null => target
  | o => extendFields target (ownProps o)

/-! ## autocomplete.js -/

namespace Autocomplete

/-- The behaviour of the functions that callers of the plugin wrote themselves. -/
abbrev HostEnv := Nat → JSVal → Except JSVal JSVal

/-- The function at lines 9-17: the query parameters of one autocomplete request,
built from Select2's `params` and the attributes of `$element`. -/
def ajaxData (el : Element) (params : JSVal) : Except JSVal JSVal := do
  let term ← member params "term"
  let page ← member params "page"
  return .obj [
    ("term", jsOr term (.str "")),
    ("page", jsOr page (.num 1)),
    ("app_label", el.attr "data-app-label"),
    ("model_name", el.attr "data-model-name"),
    ("field_name", el.attr "data-field-name")]

/-- Calling a function value with one argument. -/
def callFn (env : HostEnv) : Fn → JSVal → Except JSVal JSVal
  | .ajaxData el, arg => ajaxData el arg
  | .host i, arg => env i arg

/-- The object literal at lines 7-23: the default settings. -/
def defaultSettings (el : Element) : Fields :=
  [ ("ajax", .obj [("data", .fn (.ajaxData el)), ("delay", .num 250)]),
    ("minimumInputLength", .num 1),
    ("width", .str "resolve"),
    ("allowClear", .bool true) ]

/-- The variable `settings` of `initAutocomplete`: the defaults deep-extended with
the caller's `options`. -/
def settings (el : Element) (options : JSVal) : JSVal :=
  .obj (jqExtendDeep (defaultSettings el) options)

/-- One call `$element.select2(settings)`. -/
structure Select2Call where
  element : Element
  settings : JSVal
deriving DecidableEq

/-- The observable state of the page: the calls of the Select2 plugin made so far,
oldest first. -/
structure Page where
  select2Calls : List Select2Call
deriving DecidableEq

/-- The call `$element.select2(settings)`. Select2 is a library outside the
repository; the call is recorded on the page. -/
def select2 (el : Element) (s : JSVal) (page : Page) : Page :=
  { page with select2Calls := page.select2Calls ++ [⟨el, s⟩] }

/-- The function `initAutocomplete($element, options)`: how the call completes and
the page after it. -/
def initAutocomplete (el : Element) (options : JSVal) (page : Page) :
    Except JSVal JSVal × Page :=
  let s := settings el options
  if !truthy (el.attr "data-app-label") ||
      !truthy (el.attr "data-model-name") ||
      !truthy (el.attr "data-field-name") then
    (.ok .undefined, page)
  else
    (.ok .undefined, select2 el s page)

/-- The method `this.each(callback)` of jQuery: the callback runs on the elements in
order; a callback that returns `false` ends the loop, one that throws aborts it. -/
def each (cb : Element → Page → Except JSVal JSVal × Page) :
    List Element → Page → Except JSVal Unit × Page
  | [], page => (.ok (), page)
  | el :: rest, page =>
    match cb el page with
    | (.ok (.bool false), page') => (.ok (), page')
    | (.ok _, page') => each cb rest page'
    | (.error e, page') => (.error e, page')

/-- The callback at lines 38-40, the anonymous function given to `each`:
it calls `initAutocomplete` on the element and returns nothing. -/
def eachCallback (options : JSVal) (el : Element) (page : Page) :
    Except JSVal JSVal × Page :=
  match initAutocomplete el options page with
  | (.ok _, page') => (.ok .undefined, page')
  | (.error e, page') => (.error e, page')

/-- The plugin `$.fn.djangoAdminSelect2 = function(options)`, called on the
collection `this`: the returned collection and the page after the call. -/
def djangoAdminSelect2 (this : List Element) (options : JSVal) (page : Page) :
    Except JSVal (List Element) × Page :=
  match each (eachCallback options) this page with
  | (.ok _, page') => (.ok this, page')
  | (.error e, page') => (.error e, page')

/-- The guard of `initAutocomplete` read positively: all three metadata attributes
have truthy values. -/
def ready (el : Element) : Bool :=
  truthy (el.attr "data-app-label") &&
    truthy (el.attr "data-model-name") &&
    truthy (el.attr "data-field-name")

/-- The element has the attribute `name` and its value is not the empty string. -/
def hasValue (el : Element) (name : String) : Prop :=
  ∃ v, el.attrs.lookup name = some v ∧ v ≠ ""

/-- The value of `options.ajax` leaves the default `ajax.data` in place: it is
absent, or a plain object without a `data` property. -/
def ajaxKeepsData : JSVal → Bool
  | .undefined => true
  | .obj fs => fs.all fun kv => kv.1 != "data"
  | _ => false

/-- The caller's `options` do not supply an `ajax.data` of their own: they are
absent (`undefined` or `null`), or a plain object whose `ajax` property, if it has
one, is a plain object without a `data` property. -/
def keepsAjaxData : JSVal → Bool
  | .undefined => true
  | .null => true
  | .obj fs => fs.all fun kv => kv.1 != "ajax" || ajaxKeepsData kv.2
  | _ => false

/-- The query data Select2 sends for `params`, given the settings it was
initialised with: `ajax.data` is called when it is a function and is sent as it is
otherwise. -/
def queryData (env : HostEnv) (s : JSVal) (params : JSVal) : Except JSVal JSVal :=
  match getProp (plainFields (getProp (plainFields s) "ajax")) "data" with
  | .fn f => callFn env f params
  | v => .ok v

end Autocomplete


/-! ## Promises, the console and React effects -/

/-- A promise that has settled. -/
inductive Settled (α : Type) where
  | fulfilled (value : α)
  | rejected (reason : JSVal)
deriving DecidableEq

/-- The promise `p.then(onFulfilled)` once `p` has settled: the handler runs on a
fulfilled `p`, and a handler that throws rejects the new promise; a rejected `p` is
passed on without running the handler. -/
def Settled.andThen {α β σ : Type} (p : Settled α)
    (onFulfilled : α → σ → Except JSVal β × σ) (s : σ) : Settled β × σ :=
  match p with
  | .fulfilled v =>
    match onFulfilled v s with
    | (.ok r, s') => (.fulfilled r, s')
    | (.error e, s') => (.rejected e, s')
  | .rejected e => (.rejected e, s)

/-- The promise `p.catch(onRejected)` once `p` has settled: the handler runs on a
rejected `p`; a fulfilled `p` is passed on. -/
def Settled.orCatch {α σ : Type} (p : Settled α)
    (onRejected : JSVal → σ → Except JSVal α × σ) (s : σ) : Settled α × σ :=
  match p with
  | .fulfilled v => (.fulfilled v, s)
  | .rejected e =>
    match onRejected e s with
    | (.ok r, s') => (.fulfilled r, s')
    | (.error e', s') => (.rejected e', s')

/-- One line of console output. -/
inductive LogEntry where
  | log (v : JSVal)
  | error (v : JSVal)
deriving DecidableEq

/-- The comparison `Object.is` that React applies to dependencies. Objects, arrays
and functions are compared by identity, which the tree values do not carry: they
count as different. -/
def sameValue : JSVal → JSVal → Bool
  | .undefined, .undefined => true
  | .null, .null => true
  | .nan, .nan => true
  | .bool a, .bool b => a == b
  | .num a, .num b => a == b
  | .str a, .str b => a == b
  | _, _ => false

/-- Some dependency differs between two renders. -/
def depsChanged (prev next : List JSVal) : Bool :=
  (prev.zip next).any fun p => !sameValue p.1 p.2

/-- React runs an effect after the first render of a mount (no dependencies
recorded yet), and after a later render only when a dependency changed. -/
def effectDue (prev : Option (List JSVal)) (next : List JSVal) : Bool :=
  match prev with
  | none => true
  | some old => depsChanged old next

/-! ## frontend/src/App.js -/

namespace Frontend

/-- The response object axios resolves with; the component reads its `data`. -/
structure AxiosResponse where
  data : JSVal
deriving DecidableEq

/-- One mounted instance of the component `App`: the state variable `data`, the
console, the GET requests issued so far, the number of them that have settled, and
the dependency array React recorded at the last render. -/
structure App where
  data : JSVal
  console : List LogEntry
  requests : List String
  settled : Nat
  deps : Option (List JSVal)
deriving DecidableEq

/-- The instance before its first render: `useState([])`. -/
def App.initial : App :=
  { data := .arr [], console := [], requests := [], settled := 0, deps := none }

/-- The address the component requests. -/
def usersUrl : String := "https://testapi.devtoolsdaily.com/users"

/-- The call `setData(v)`. -/
def setData (v : JSVal) (app : App) : Except JSVal JSVal × App :=
  (.ok .undefined, { app with data := v })

/-- The call `console.error(v)`. -/
def consoleError (v : JSVal) (app : App) : Except JSVal JSVal × App :=
  (.ok .undefined, { app with console := app.console ++ [.error v] })

/-- The body of the effect, lines 8-10: `axios.get` issues the request and the two
handlers wait for it. -/
def effect (app : App) : App :=
  { app with requests := app.requests ++ [usersUrl] }

/-- The handlers `.then(res => setData(res.data)).catch(err => console.error(err))`
run when the request settles: the state of the last promise of the chain and the
instance afterwards. -/
def onSettled (p : Settled AxiosResponse) (app : App) : Settled JSVal × App :=
  let r := p.andThen (fun res s => setData res.data s) app
  r.1.orCatch (fun err s => consoleError err s) r.2

/-- React after a render of the instance: `useEffect(..., [])` runs the effect when
it is due and records the dependency array. -/
def commit (app : App) : App :=
  let app' := if effectDue app.deps [] then effect app else app
  { app' with deps := some [] }

/-- What happens to a mounted instance: it renders again, or its request settles. -/
inductive Event where
  | rendered
  | settled (p : Settled AxiosResponse)
deriving DecidableEq

/-- One event on an instance. -/
def step (app : App) : Event → App
  | .rendered => commit app
  | .settled p =>
    let r := (onSettled p app).2
    { r with settled := r.settled + 1 }

/-- A sequence of events on an instance. -/
def run (app : App) (evs : List Event) : App := evs.foldl step app

/-- The mount: the first render of a fresh instance. -/
def mount : App := commit App.initial

/-- The requests of the instance that have not settled. -/
def outstanding (app : App) : Nat := app.requests.length - app.settled

/-- An element `<li key=...>text</li>`. -/
structure Li where
  key : JSVal
  text : JSVal
deriving DecidableEq

/-- The rendered tree: `<ul>` and its items. -/
inductive VNode where
  | ul (children : List Li)
deriving DecidableEq

/-- The callback `item => <li key={item.id}>{item.firstName}</li>`. -/
def renderItem (item : JSVal) : Except JSVal Li := do
  let id ← member item "id"
  let firstName ← member item "firstName"
  return { key := id, text := firstName }

/-- The method `map` of an array with the callback `renderItem`. -/
def renderItems : List JSVal → Except JSVal (List Li)
  | [] => .ok []
  | item :: rest => do
    let li ← renderItem item
    let lis ← renderItems rest
    return li :: lis

/-- The returned JSX, lines 13-19. The state only ever holds `[]` or a parsed JSON
body, and of those only an array has a method `map`: on any other value the call
`data.map` throws. -/
def render (app : App) : Except JSVal VNode :=
  match app.data with
  | .arr items => (renderItems items).map .ul
  | _ => .error typeError

/-- The body of the latest request that was fulfilled among `evs`, if any: the
"latest fetch result" of the specification. -/
def latestPayload : List Event → Option JSVal
  | [] => none
  | ev :: rest =>
    match latestPayload rest with
    | some p => some p
    | none =>
      match ev with
      | .settled (.fulfilled res) => some res.data
      | _ => none

end Frontend

/-! ## hello/myapplication/frontend/src/App.js -/

namespace MyApplication

/-- The `Response` that `fetch` resolves with; the component calls `res.json()`,
which returns a promise for the parsed body. -/
structure FetchResponse where
  json : Settled JSVal
deriving DecidableEq

/-- One mounted instance of the component `App`; it has no state variable. -/
structure App where
  console : List LogEntry
  requests : List String
  settled : Nat
  deps : Option (List JSVal)
deriving DecidableEq

/-- The instance before its first render. -/
def App.initial : App :=
  { console := [], requests := [], settled := 0, deps := none }

/-- The address the component requests. -/
def backendUrl : String := "http://192.168.1.4:8000"

/-- The call `console.log(v)`. -/
def consoleLog (v : JSVal) (app : App) : Except JSVal JSVal × App :=
  (.ok .undefined, { app with console := app.console ++ [.log v] })

/-- The call `console.error(v)`. -/
def consoleError (v : JSVal) (app : App) : Except JSVal JSVal × App :=
  (.ok .undefined, { app with console := app.console ++ [.error v] })

/-- The body of the effect, lines 7-12: `fetch` issues the request and the
handlers wait for it. -/
def effect (app : App) : App :=
  { app with requests := app.requests ++ [backendUrl] }

/-- The promise `.then(res => res.json())`: a handler that returns a promise makes
the new promise settle the way that promise does. -/
def jsonOf (p : Settled FetchResponse) : Settled JSVal :=
  match p with
  | .fulfilled res => res.json
  | .rejected e => .rejected e

/-- The handlers of lines 8-12 run when the request settles: the state of the last
promise of the chain and the instance afterwards. -/
def onSettled (p : Settled FetchResponse) (app : App) : Settled JSVal × App :=
  let r := (jsonOf p).andThen (fun data s => consoleLog data s) app
  r.1.orCatch (fun err s => consoleError err s) r.2

/-- React after a render of the instance: `useEffect(..., [])`. -/
def commit (app : App) : App :=
  let app' := if effectDue app.deps [] then effect app else app
  { app' with deps := some [] }

/-- What happens to a mounted instance: it renders again, or its request settles. -/
inductive Event where
  | rendered
  | settled (p : Settled FetchResponse)
deriving DecidableEq

/-- One event on an instance. -/
def step (app : App) : Event → App
  | .rendered => commit app
  | .settled p =>
    let r := (onSettled p app).2
    { r with settled := r.settled + 1 }

/-- A sequence of events on an instance. -/
def run (app : App) (evs : List Event) : App := evs.foldl step app

/-- The mount: the first render of a fresh instance. -/
def mount : App := commit App.initial

/-- The requests of the instance that have not settled. -/
def outstanding (app : App) : Nat := app.requests.length - app.settled

end MyApplication

/-! ## Facts about the value model -/

theorem getProp_setProp_same (fs : Fields) (k : String) (v : JSVal) :
    getProp (setProp fs k v) k = v := by
  induction fs with
  | nil => simp [setProp, getProp]
  | cons hd tl ih =>
    obtain ⟨k0, w⟩ := hd
    by_cases h : k0 = k
    · simp [setProp, getProp, h]
    · simp [setProp, getProp, h, ih]

theorem getProp_setProp_other (fs : Fields) (k k' : String) (v : JSVal) (h : k ≠ k') :
    getProp (setProp fs k v) k' = getProp fs k' := by
  induction fs with
  | nil => simp [setProp, getProp, h]
  | cons hd tl ih =>
    obtain ⟨k0, w⟩ := hd
    by_cases h0 : k0 = k
    · subst h0
      simp [setProp, getProp, h]
    · by_cases h1 : k0 = k'
      · subst h1
        simp [setProp, getProp, h0]
      · simp [setProp, getProp, h0, h1, ih]

theorem extendFields_cons_skip (target rest : Fields) (name : String) (copy : JSVal)
    (h : name = "__proto__" ∨ copy = .undefined) :
    extendFields target ((name, copy) :: rest) = extendFields target rest := by
  rcases h with h | h
  · subst h
    cases copy <;> simp [extendFields]
  · subst h
    simp [extendFields]

theorem extendFields_cons_merge (target rest : Fields) (name : String) (copy : JSVal)
    (h1 : name ≠ "__proto__") (h2 : copy ≠ .undefined) :
    extendFields target ((name, copy) :: rest) =
      extendFields (setProp target name (mergeValue (getProp target name) copy)) rest := by
  cases copy <;> simp_all [extendFields]

/-- Merging properties none of which is called `k` leaves `target[k]` as it was. -/
theorem getProp_extendFields_other (k : String) (fs target : Fields)
    (h : ∀ kv ∈ fs, kv.1 ≠ k) : getProp (extendFields target fs) k = getProp target k := by
  induction fs generalizing target with
  | nil => simp [extendFields]
  | cons hd tl ih =>
    obtain ⟨name, copy⟩ := hd
    have hname : name ≠ k := h (name, copy) (List.mem_cons_self _ _)
    have htl : ∀ kv ∈ tl, kv.1 ≠ k := fun kv hkv => h kv (List.mem_cons_of_mem _ hkv)
    by_cases hs : name = "__proto__" ∨ copy = .undefined
    · rw [extendFields_cons_skip _ _ _ _ hs]
      exact ih target htl
    · rw [not_or] at hs
      rw [extendFields_cons_merge _ _ _ _ hs.1 hs.2, ih _ htl,
        getProp_setProp_other _ _ _ _ hname]

theorem truthy_attr_iff (el : Element) (name : String) :
    truthy (el.attr name) = true ↔ Autocomplete.hasValue el name := by
  unfold Element.attr Autocomplete.hasValue
  cases h : el.attrs.lookup name with
  | none => simp [truthy]
  | some v => simp [truthy]

theorem attr_of_lookup_none (el : Element) (name : String)
    (h : el.attrs.lookup name = none) : el.attr name = .undefined := by
  simp [Element.attr, h]

theorem attr_of_lookup_some (el : Element) (name v : String)
    (h : el.attrs.lookup name = some v) : el.attr name = .str v := by
  simp [Element.attr, h]

theorem ready_iff (el : Element) :
    Autocomplete.ready el = true ↔
      Autocomplete.hasValue el "data-app-label" ∧
        Autocomplete.hasValue el "data-model-name" ∧
        Autocomplete.hasValue el "data-field-name" := by
  simp [Autocomplete.ready, truthy_attr_iff, and_assoc]

theorem initAutocomplete_eq (el : Element) (options : JSVal) (page : Autocomplete.Page) :
    Autocomplete.initAutocomplete el options page =
      (.ok .undefined,
        if Autocomplete.ready el then
          Autocomplete.select2 el (Autocomplete.settings el options) page
        else page) := by
  unfold Autocomplete.initAutocomplete Autocomplete.ready
  cases truthy (el.attr "data-app-label") <;>
    cases truthy (el.attr "data-model-name") <;>
    cases truthy (el.attr "data-field-name") <;> simp

theorem each_initAutocomplete (options : JSVal) (this : List Element)
    (page : Autocomplete.Page) :
    Autocomplete.each (Autocomplete.eachCallback options) this page =
      (.ok (), this.foldl (fun pg el => (Autocomplete.initAutocomplete el options pg).2) page) := by
  induction this generalizing page with
  | nil => simp [Autocomplete.each]
  | cons el rest ih =>
    simp only [Autocomplete.each, Autocomplete.eachCallback, List.foldl_cons]
    rw [initAutocomplete_eq]
    simp only []
    rw [ih]

theorem foldl_initAutocomplete_calls (options : JSVal) (this : List Element)
    (page : Autocomplete.Page) :
    (this.foldl (fun pg el => (Autocomplete.initAutocomplete el options pg).2)
        page).select2Calls =
      page.select2Calls ++ (this.filter Autocomplete.ready).map
        (fun el => ⟨el, Autocomplete.settings el options⟩) := by
  induction this generalizing page with
  | nil => simp
  | cons el rest ih =>
    rw [List.foldl_cons, ih, initAutocomplete_eq]
    by_cases h : Autocomplete.ready el = true
    · simp [h, Autocomplete.select2, List.filter_cons]
    · simp [h, List.filter_cons]

/-- Merging options whose `ajax` entries carry no `data` keeps `target.ajax.data`. -/
theorem extendFields_keeps_ajax_data (d : JSVal) (fs target : Fields)
    (hfs : (fs.all fun kv => kv.1 != "ajax" || Autocomplete.ajaxKeepsData kv.2) = true)
    (ht : ∃ afs, getProp target "ajax" = .obj afs ∧ getProp afs "data" = d) :
    ∃ afs, getProp (extendFields target fs) "ajax" = .obj afs ∧ getProp afs "data" = d := by
  induction fs generalizing target with
  | nil => simpa [extendFields] using ht
  | cons hd tl ih =>
    obtain ⟨name, copy⟩ := hd
    rw [List.all_cons, Bool.and_eq_true] at hfs
    obtain ⟨hhd, htl⟩ := hfs
    by_cases hs : name = "__proto__" ∨ copy = .undefined
    · rw [extendFields_cons_skip _ _ _ _ hs]
      exact ih target htl ht
    · rw [not_or] at hs
      rw [extendFields_cons_merge _ _ _ _ hs.1 hs.2]
      apply ih _ htl
      obtain ⟨afs, hafs, hd⟩ := ht
      by_cases hn : name = "ajax"
      · subst hn
        rw [getProp_setProp_same, hafs]
        have hk : Autocomplete.ajaxKeepsData copy = true := by simpa using hhd
        cases copy with
        | obj cfs =>
          refine ⟨extendFields afs cfs, by simp [mergeValue, plainFields], ?_⟩
          rw [getProp_extendFields_other, hd]
          intro kv hkv
          have := List.all_eq_true.mp hk kv hkv
          simpa using this
        | undefined => exact absurd rfl hs.2
        | _ => simp [Autocomplete.ajaxKeepsData] at hk
      · rw [getProp_setProp_other _ _ _ _ hn]
        exact ⟨afs, hafs, hd⟩

/-- Options that supply no `ajax.data` leave the default data function in the
settings. -/
theorem settings_ajax_data (el : Element) (options : JSVal)
    (h : Autocomplete.keepsAjaxData options = true) :
    getProp (plainFields (getProp (plainFields (Autocomplete.settings el options)) "ajax"))
      "data" = .fn (.ajaxData el) := by
  have h0 : ∃ afs, getProp (Autocomplete.defaultSettings el) "ajax" = .obj afs ∧
      getProp afs "data" = .fn (.ajaxData el) :=
    ⟨[("data", .fn (.ajaxData el)), ("delay", .num 250)],
      by simp [Autocomplete.defaultSettings, getProp], by simp [getProp]⟩
  have key : ∃ afs, getProp (jqExtendDeep (Autocomplete.defaultSettings el) options) "ajax" =
      .obj afs ∧ getProp afs "data" = .fn (.ajaxData el) := by
    cases options with
    | undefined => simpa [jqExtendDeep] using h0
    | null => simpa [jqExtendDeep] using h0
    | obj fs =>
      simp only [jqExtendDeep, ownProps]
      exact extendFields_keeps_ajax_data _ fs _ (by simpa [Autocomplete.keepsAjaxData] using h) h0
    | _ => simp [Autocomplete.keepsAjaxData] at h
  obtain ⟨afs, h1, h2⟩ := key
  simp [Autocomplete.settings, plainFields, h1, h2]

theorem renderItems_records (items : List JSVal) (h : ∀ it ∈ items, ∃ fs, it = JSVal.obj fs) :
    Frontend.renderItems items =
      .ok (items.map fun it =>
        ⟨getProp (plainFields it) "id", getProp (plainFields it) "firstName"⟩) := by
  induction items with
  | nil => rfl
  | cons it rest ih =>
    obtain ⟨fs, hfs⟩ := h it (List.mem_cons_self _ _)
    have hrest := ih fun x hx => h x (List.mem_cons_of_mem _ hx)
    subst hfs
    simp only [Frontend.renderItems, hrest, Frontend.renderItem, member, List.map_cons,
      plainFields]
    rfl

theorem frontend_run_data (evs : List Frontend.Event) (app : Frontend.App) :
    (Frontend.run app evs).data = (Frontend.latestPayload evs).getD app.data := by
  induction evs generalizing app with
  | nil => rfl
  | cons ev rest ih =>
    have hrun : Frontend.run app (ev :: rest) = Frontend.run (Frontend.step app ev) rest := rfl
    rw [hrun, ih]
    cases hl : Frontend.latestPayload rest with
    | some p => simp [Frontend.latestPayload, hl]
    | none =>
      cases ev with
      | rendered =>
        simp only [Frontend.latestPayload, hl, Option.getD_none, Frontend.step,
          Frontend.commit]
        split <;> rfl
      | settled p =>
        cases p with
        | fulfilled res =>
          simp only [Frontend.latestPayload, hl, Option.getD_none, Option.getD_some]
          rfl
        | rejected e =>
          simp only [Frontend.latestPayload, hl, Option.getD_none]
          rfl

theorem frontend_run_requests (evs : List Frontend.Event) (app : Frontend.App)
    (hd : app.deps = some []) :
    (Frontend.run app evs).requests = app.requests := by
  induction evs generalizing app with
  | nil => rfl
  | cons ev rest ih =>
    have hrun : Frontend.run app (ev :: rest) = Frontend.run (Frontend.step app ev) rest := rfl
    rw [hrun]
    cases ev with
    | rendered =>
      have hs : Frontend.step app .rendered = app := by
        cases app
        simp only [] at hd
        subst hd
        rfl
      rw [hs]
      exact ih app hd
    | settled p =>
      have h1 : (Frontend.step app (.settled p)).deps = some [] := by
        cases p <;> exact hd
      have h2 : (Frontend.step app (.settled p)).requests = app.requests := by
        cases p <;> rfl
      rw [ih _ h1, h2]

theorem myapp_run_requests (evs : List MyApplication.Event) (app : MyApplication.App)
    (hd : app.deps = some []) :
    (MyApplication.run app evs).requests = app.requests := by
  induction evs generalizing app with
  | nil => rfl
  | cons ev rest ih =>
    have hrun : MyApplication.run app (ev :: rest) =
        MyApplication.run (MyApplication.step app ev) rest := rfl
    rw [hrun]
    cases ev with
    | rendered =>
      have hs : MyApplication.step app .rendered = app := by
        cases app
        simp only [] at hd
        subst hd
        rfl
      rw [hs]
      exact ih app hd
    | settled p =>
      have h1 : (MyApplication.step app (.settled p)).deps = some [] := by
        rcases p with ⟨⟨_ | _⟩⟩ | _ <;> exact hd
      have h2 : (MyApplication.step app (.settled p)).requests = app.requests := by
        rcases p with ⟨⟨_ | _⟩⟩ | _ <;> rfl
      rw [ih _ h1, h2]

/-! ## Claims about autocomplete.js -/

namespace Autocomplete

/-- C1: when at least one of the attributes data-app-label, data-model-name,
data-field-name is absent from the element, initAutocomplete completes without
throwing, returns undefined and leaves the page as it was (no call of select2),
whatever the options are. -/
theorem initAutocomplete_noop_of_missing (el : Element) (options : JSVal) (page : Page)
    (h : el.attrs.lookup "data-app-label" = none ∨
      el.attrs.lookup "data-model-name" = none ∨
      el.attrs.lookup "data-field-name" = none) :
    initAutocomplete el options page = (.ok .undefined, page) := by
  rw [initAutocomplete_eq]
  have hr : ready el = false := by
    rcases h with h | h | h <;> simp [ready, attr_of_lookup_none _ _ h, truthy]
  simp [hr]

theorem initAutocomplete_noop_of_missing_witness :
    (([("data-app-label", "auth"), ("data-field-name", "user")] :
        List (String × String)).lookup "data-model-name" = none) ∧
      initAutocomplete ⟨7, [("data-app-label", "auth"), ("data-field-name", "user")]⟩
          (.obj [("ajax", .obj [("url", .str "/admin/autocomplete/")])])
          ⟨[⟨⟨1, []⟩, .null⟩]⟩ =
        (.ok .undefined, ⟨[⟨⟨1, []⟩, .null⟩]⟩) :=
  ⟨by decide,
    initAutocomplete_noop_of_missing _ _ _ (Or.inr (Or.inl (by decide)))⟩

/-- C8: initAutocomplete always completes with undefined, and it calls select2 on
the element (once, with the merged settings) exactly when each of data-app-label,
data-model-name and data-field-name has a non-empty value; otherwise, also when an
attribute is present with the empty string as value, the page is left as it was. -/
theorem initAutocomplete_select2_iff (el : Element) (options : JSVal) (page : Page) :
    (initAutocomplete el options page).1 = .ok .undefined ∧
      ((initAutocomplete el options page).2.select2Calls =
          page.select2Calls ++ [⟨el, settings el options⟩] ↔
        (hasValue el "data-app-label" ∧ hasValue el "data-model-name" ∧
          hasValue el "data-field-name")) ∧
      ((initAutocomplete el options page).2 = page ↔
        ¬ (hasValue el "data-app-label" ∧ hasValue el "data-model-name" ∧
          hasValue el "data-field-name")) := by
  rw [initAutocomplete_eq, ← ready_iff]
  by_cases h : ready el = true
  · simp [h, select2]
    intro hp
    have := congrArg (fun p => p.select2Calls.length) hp
    simp at this
  · simp [h]

/-- C9: djangoAdminSelect2 returns the collection it was called on; the page after
it is the one obtained by running initAutocomplete with the same options on each
element in collection order, so that select2 has been called, in that order, on
exactly the elements whose three metadata attributes have values, the others being
skipped. -/
theorem djangoAdminSelect2_spec (this : List Element) (options : JSVal) (page : Page) :
    (djangoAdminSelect2 this options page).1 = .ok this ∧
      (djangoAdminSelect2 this options page).2 =
        this.foldl (fun pg el => (initAutocomplete el options pg).2) page ∧
      (djangoAdminSelect2 this options page).2.select2Calls =
        page.select2Calls ++
          (this.filter ready).map (fun el => ⟨el, settings el options⟩) := by
  unfold djangoAdminSelect2
  rw [each_initAutocomplete]
  exact ⟨rfl, rfl, foldl_initAutocomplete_calls options this page⟩

/-- C2, as stated, fails: for an element with all three attributes and the params
object with page 0, the page of the query data is 1, not params.page. -/
theorem ajaxData_page_zero :
    ajaxData ⟨0, [("data-app-label", "auth"), ("data-model-name", "user"),
          ("data-field-name", "groups")]⟩ (.obj [("term", .str "ab"), ("page", .num 0)]) =
        .ok (.obj [("term", .str "ab"), ("page", .num 1), ("app_label", .str "auth"),
          ("model_name", .str "user"), ("field_name", .str "groups")]) ∧
      getProp [("term", .str "ab"), ("page", .num 0)] "page" = .num 0 ∧
      JSVal.num 1 ≠ getProp [("term", .str "ab"), ("page", .num 0)] "page" := by
  decide

/-- C2, amended: for an element carrying all three attributes and every params
object, the default ajax.data function returns an object with exactly the keys term,
page, app_label, model_name, field_name, in which the last three are the element's
attribute values, term is params.term when that is truthy and the empty string
otherwise, and page is params.page when that is truthy and 1 otherwise; in
particular an absent term gives the empty string and an absent page gives 1. -/
theorem ajaxData_spec (el : Element) (a m f : String) (params : Fields)
    (ha : el.attrs.lookup "data-app-label" = some a)
    (hm : el.attrs.lookup "data-model-name" = some m)
    (hf : el.attrs.lookup "data-field-name" = some f) :
    ajaxData el (.obj params) =
        .ok (.obj [
          ("term", if truthy (getProp params "term") then getProp params "term" else .str ""),
          ("page", if truthy (getProp params "page") then getProp params "page" else .num 1),
          ("app_label", .str a), ("model_name", .str m), ("field_name", .str f)]) ∧
      (getProp params "term" = .undefined →
        ∃ p, ajaxData el (.obj params) = .ok (.obj [("term", .str ""), ("page", p),
          ("app_label", .str a), ("model_name", .str m), ("field_name", .str f)])) ∧
      (getProp params "page" = .undefined →
        ∃ t, ajaxData el (.obj params) = .ok (.obj [("term", t), ("page", .num 1),
          ("app_label", .str a), ("model_name", .str m), ("field_name", .str f)])) := by
  have key : ajaxData el (.obj params) =
      .ok (.obj [
        ("term", if truthy (getProp params "term") then getProp params "term" else .str ""),
        ("page", if truthy (getProp params "page") then getProp params "page" else .num 1),
        ("app_label", .str a), ("model_name", .str m), ("field_name", .str f)]) := by
    simp only [ajaxData, member, jsOr, attr_of_lookup_some _ _ _ ha,
      attr_of_lookup_some _ _ _ hm, attr_of_lookup_some _ _ _ hf]
    rfl
  refine ⟨key, ?_, ?_⟩
  · intro h
    refine ⟨if truthy (getProp params "page") then getProp params "page" else .num 1, ?_⟩
    rw [key, h]
    simp [truthy]
  · intro h
    refine ⟨if truthy (getProp params "term") then getProp params "term" else .str "", ?_⟩
    rw [key, h]
    simp [truthy]

theorem ajaxData_spec_witness :
    ajaxData ⟨3, [("data-app-label", "auth"), ("data-model-name", "user"),
          ("data-field-name", "groups")]⟩ (.obj [("term", .str "ab")]) =
        .ok (.obj [("term", .str "ab"), ("page", .num 1), ("app_label", .str "auth"),
          ("model_name", .str "user"), ("field_name", .str "groups")]) :=
  (ajaxData_spec ⟨3, [("data-app-label", "auth"), ("data-model-name", "user"),
      ("data-field-name", "groups")]⟩ "auth" "user" "groups" [("term", .str "ab")]
    (by decide) (by decide) (by decide)).1

/-- C3 does not hold of the code: for an element with all three metadata attributes
and options that supply their own ajax.data, the deep extend puts the caller's function
in place of the default one, select2 receives those settings, and their query data
has none of the keys app_label, model_name, field_name. -/
theorem settings_overridden_data :
    initAutocomplete
        ⟨0, [("data-app-label", "auth"), ("data-model-name", "user"),
          ("data-field-name", "groups")]⟩
        (.obj [("ajax", .obj [("data", .fn (.host 0))])]) ⟨[]⟩ =
      (.ok .undefined,
        ⟨[⟨⟨0, [("data-app-label", "auth"), ("data-model-name", "user"),
            ("data-field-name", "groups")]⟩,
          .obj [("ajax", .obj [("data", .fn (.host 0)), ("delay", .num 250)]),
            ("minimumInputLength", .num 1), ("width", .str "resolve"),
            ("allowClear", .bool true)]⟩]⟩) ∧
      queryData (fun _ params => (member params "term").map fun t => .obj [("q", t)])
          (.obj [("ajax", .obj [("data", .fn (.host 0)), ("delay", .num 250)]),
            ("minimumInputLength", .num 1), ("width", .str "resolve"),
            ("allowClear", .bool true)])
          (.obj [("term", .str "ab")]) = .ok (.obj [("q", .str "ab")]) ∧
      (([("q", .str "ab")] : Fields).lookup "app_label" = none ∧
        ([("q", .str "ab")] : Fields).lookup "model_name" = none ∧
        ([("q", .str "ab")] : Fields).lookup "field_name" = none) := by
  decide

/-- Options without an ajax.data of their own keep the required query keys: for an
element carrying all three metadata attributes and for absent options, or a plain
object whose ajax property is absent or a plain object without data (whatever other
ajax settings it has), the only settings initAutocomplete hands to select2 are the
merged settings, and their query data for a params object has the keys app_label,
model_name and field_name with the element's attribute values. -/
theorem settings_query_data (env : HostEnv) (el : Element) (options : JSVal)
    (a m f : String) (params : Fields)
    (ha : el.attrs.lookup "data-app-label" = some a)
    (hm : el.attrs.lookup "data-model-name" = some m)
    (hf : el.attrs.lookup "data-field-name" = some f)
    (hk : keepsAjaxData options = true) :
    (∀ page, ∀ c ∈ (initAutocomplete el options page).2.select2Calls,
        c ∈ page.select2Calls ∨ c = ⟨el, settings el options⟩) ∧
      queryData env (settings el options) (.obj params) =
        .ok (.obj [
          ("term", jsOr (getProp params "term") (.str "")),
          ("page", jsOr (getProp params "page") (.num 1)),
          ("app_label", .str a), ("model_name", .str m), ("field_name", .str f)]) := by
  constructor
  · intro page c hc
    rw [initAutocomplete_eq] at hc
    by_cases hr : ready el = true
    · simpa [hr, select2] using hc
    · left
      simpa [hr] using hc
  · unfold queryData
    rw [settings_ajax_data el options hk]
    simp only [callFn, ajaxData, member, attr_of_lookup_some _ _ _ ha,
      attr_of_lookup_some _ _ _ hm, attr_of_lookup_some _ _ _ hf]
    rfl

theorem settings_query_data_witness :
    queryData (fun _ _ => .ok .null)
        (settings ⟨3, [("data-app-label", "auth"), ("data-model-name", "user"),
          ("data-field-name", "groups")]⟩
          (.obj [("ajax", .obj [("url", .str "/admin/autocomplete/")]),
            ("placeholder", .str "pick")]))
        (.obj [("term", .str "ab"), ("page", .num 2)]) =
      .ok (.obj [("term", jsOr (getProp [("term", .str "ab"), ("page", .num 2)] "term") (.str "")),
        ("page", jsOr (getProp [("term", .str "ab"), ("page", .num 2)] "page") (.num 1)),
        ("app_label", .str "auth"), ("model_name", .str "user"),
        ("field_name", .str "groups")]) :=
  (settings_query_data (fun _ _ => .ok .null)
    ⟨3, [("data-app-label", "auth"), ("data-model-name", "user"),
      ("data-field-name", "groups")]⟩
    (.obj [("ajax", .obj [("url", .str "/admin/autocomplete/")]),
      ("placeholder", .str "pick")])
    "auth" "user" "groups" [("term", .str "ab"), ("page", .num 2)]
    (by decide) (by decide) (by decide) (by decide)).2

end Autocomplete

/-! ## Claims about the two App components -/

namespace Frontend

/-- C4: once the fetch has succeeded with an array of user records, App renders a
list with exactly as many items as the array, in the same order, in which the i-th
item has the i-th record's id as key and its firstName as text. -/
theorem render_fetched_list (items : List JSVal) (h : ∀ it ∈ items, ∃ fs, it = JSVal.obj fs) :
    ∃ lis, render (step mount (.settled (.fulfilled ⟨.arr items⟩))) = .ok (.ul lis) ∧
      lis.length = items.length ∧
      ∀ (i : Nat) (fs : Fields), items[i]? = some (.obj fs) →
        lis[i]? = some (Li.mk (getProp fs "id") (getProp fs "firstName")) := by
  refine ⟨items.map fun it =>
    ⟨getProp (plainFields it) "id", getProp (plainFields it) "firstName"⟩, ?_, ?_, ?_⟩
  · have hd : (step mount (.settled (.fulfilled ⟨.arr items⟩))).data = .arr items := rfl
    simp only [render, hd, renderItems_records items h]
    rfl
  · simp
  · intro i fs hi
    simp [List.getElem?_map, hi, plainFields]

theorem render_fetched_list_witness :
    ∃ lis, render (step mount (.settled (.fulfilled
        ⟨.arr [.obj [("id", .num 1), ("firstName", .str "Ann")],
          .obj [("id", .num 2), ("firstName", .str "Bo"), ("age", .num 30)]]⟩))) =
          .ok (.ul lis) ∧
      lis.length = [JSVal.obj [("id", .num 1), ("firstName", .str "Ann")],
          .obj [("id", .num 2), ("firstName", .str "Bo"), ("age", .num 30)]].length ∧
      ∀ (i : Nat) (fs : Fields),
        [JSVal.obj [("id", .num 1), ("firstName", .str "Ann")],
          .obj [("id", .num 2), ("firstName", .str "Bo"), ("age", .num 30)]][i]? =
            some (.obj fs) →
        lis[i]? = some (Li.mk (getProp fs "id") (getProp fs "firstName")) :=
  render_fetched_list _ (by
    intro it hit
    simp only [List.mem_cons, List.mem_singleton, List.not_mem_nil, or_false] at hit
    rcases hit with rfl | rfl <;> exact ⟨_, rfl⟩)

/-- C6: in every state reached from the mount by any sequence of events (renders,
fulfilled and rejected requests), the list in state is the body of the latest
fulfilled request, or the empty list when none was fulfilled; a fulfilled request
replaces the list by its body and a rejected one leaves the list as it was. -/
theorem data_latest_or_empty (evs : List Event) :
    (run mount evs).data = (latestPayload evs).getD (.arr []) ∧
      (∀ (app : App) (res : AxiosResponse),
        (step app (.settled (.fulfilled res))).data = res.data) ∧
      (∀ (app : App) (err : JSVal), (step app (.settled (.rejected err))).data = app.data) :=
  ⟨frontend_run_data evs mount, fun _ _ => rfl, fun _ _ => rfl⟩

end Frontend

/-- C5: when the request is rejected with any error, the list state of the App of
frontend/src/App.js stays the empty list and the rendered list has no items; in both
App components the handlers only log the error with console.error, and the last
promise of the chain is fulfilled, so that no rejection is left unhandled. -/
theorem fetch_failure_logged (err : JSVal) :
    (Frontend.onSettled (.rejected err) Frontend.mount).1 = .fulfilled .undefined ∧
      (Frontend.step Frontend.mount (.settled (.rejected err))).data = .arr [] ∧
      Frontend.render (Frontend.step Frontend.mount (.settled (.rejected err))) =
        .ok (.ul []) ∧
      (Frontend.step Frontend.mount (.settled (.rejected err))).console = [.error err] ∧
      (MyApplication.onSettled (.rejected err) MyApplication.mount).1 =
        .fulfilled .undefined ∧
      (MyApplication.step MyApplication.mount (.settled (.rejected err))).console =
        [.error err] :=
  ⟨rfl, rfl, rfl, rfl, rfl, rfl⟩

/-- C7: for each of the two App components, after a mount and any sequence of later
events (renders, fulfilled or rejected requests) exactly one GET has been issued, to
the fixed address: the effect ran once, nothing is retried after a failure, and at
most one request is outstanding. -/
theorem mount_issues_one_request (evs : List Frontend.Event)
    (evs' : List MyApplication.Event) :
    ((Frontend.run Frontend.mount evs).requests = [Frontend.usersUrl] ∧
        Frontend.outstanding (Frontend.run Frontend.mount evs) ≤ 1) ∧
      ((MyApplication.run MyApplication.mount evs').requests = [MyApplication.backendUrl] ∧
        MyApplication.outstanding (MyApplication.run MyApplication.mount evs') ≤ 1) := by
  have h1 : (Frontend.run Frontend.mount evs).requests = [Frontend.usersUrl] :=
    frontend_run_requests evs Frontend.mount rfl
  have h2 : (MyApplication.run MyApplication.mount evs').requests =
      [MyApplication.backendUrl] := myapp_run_requests evs' MyApplication.mount rfl
  refine ⟨⟨h1, ?_⟩, ⟨h2, ?_⟩⟩
  · simp [Frontend.outstanding, h1]
  · simp [MyApplication.outstanding, h2]
